import Mathlib

/-!
Verification of the social-listening metrics aggregation pipeline.

The definitions below are a shallow embedding of the Python sources:
  app/data/processor.py  (SocialMediaDataProcessor.process_data)
  app/services/gemini_service.py (GeminiService.generate_insights, tenacity retry)
  app/main.py            (search_brand endpoint)
  app/data/collector.py  (SocialMediaDataCollector.collect_data, save_data_to_json)

Machine integers are modelled as Nat (Python ints are unbounded), the
floating-point ratios as Rat (the divisions proved to occur only with
positive divisors, so no rounding subtleties matter to the properties),
external I/O (the Gemini API, file writes) as explicit outcome
parameters, and the processor's mutable `self.metrics` dict as explicit
state passing with an aliasing marker for the returned reference.
-/

/-- The `engagement` sub-dict of a post record: likes/comments/shares. -/
structure Engagement where
  likes : Nat
  comments : Nat
  shares : Nat
deriving DecidableEq

/-- One post record as produced by the collector (collector.py lines 39-50):
keys platform, date, content, engagement, sentiment, url. -/
structure PostRecord where
  platform : String
  date : String
  content : String
  engagement : Engagement
  sentiment : String
  url : String
deriving DecidableEq

/-- One value of the `platform_stats` mapping (processor.py lines 62-66). -/
structure PlatformStat where
  total_engagement : Nat
  posts : Nat
  avg_engagement : Rat
deriving DecidableEq

/-- One value of the `sentiment_stats` mapping (processor.py lines 73-77). -/
structure SentimentStat where
  count : Nat
  percentage : Rat
deriving DecidableEq

/-- The metrics dict built by process_data; insertion-ordered Python dicts
are modelled as association lists. -/
structure Metrics where
  total_posts : Nat
  total_engagement : Nat
  platform_stats : List (String × PlatformStat)
  sentiment_stats : List (String × SentimentStat)
  daily_engagement : List (String × Nat)
  raw_data : List PostRecord
deriving DecidableEq

/-- The all-zero metrics dict (processor.py lines 12-19 and 26-33). -/
def emptyMetrics : Metrics :=
  { total_posts := 0
    total_engagement := 0
    platform_stats := []
    sentiment_stats := []
    daily_engagement := []
    raw_data := [] }

/-- engagement["likes"] + engagement["comments"] + engagement["shares"],
the per-record engagement total summed throughout process_data. -/
def engTotal (r : PostRecord) : Nat :=
  r.engagement.likes + r.engagement.comments + r.engagement.shares

/-- `row["date"].split()[0]` (processor.py line 83): the date part of the
timestamp string, i.e. its first whitespace-separated token (str.split
with no argument skips leading whitespace runs and cuts at the next one). -/
def datePart (s : String) : String :=
  String.mk ((s.data.dropWhile (fun c => c.isWhitespace)).takeWhile
    (fun c => ¬ c.isWhitespace))

/-- `df[col].unique()`: the distinct values in first-occurrence order,
with the values already emitted carried in `seen`. -/
def uniqueAux (seen : List String) : List String → List String
  | [] => []
  | x :: xs => if x ∈ seen then uniqueAux seen xs else x :: uniqueAux (x :: seen) xs

/-- `df[col].unique()` with no values emitted yet. -/
def unique (l : List String) : List String := uniqueAux [] l

/-- The platform_stats loop (processor.py lines 55-67): for each distinct
platform, sum the group's engagement, count its rows, and divide with the
explicit `if len(platform_df) > 0 else 0` guard. -/
def platform_stats_of (R : List PostRecord) : List (String × PlatformStat) :=
  (unique (R.map (fun r => r.platform))).map (fun p =>
    let grp := R.filter (fun r => r.platform = p)
    let pe := (grp.map engTotal).sum
    (p, { total_engagement := pe
          posts := grp.length
          avg_engagement := if grp.length > 0 then (pe : Rat) / (grp.length : Rat) else 0 }))

/-- The sentiment_stats loop (processor.py lines 70-78): count each
distinct sentiment's rows and compute `(len(sentiment_df) / len(df)) * 100`
(no guard in the source: this branch only runs when the frame is non-empty). -/
def sentiment_stats_of (R : List PostRecord) : List (String × SentimentStat) :=
  (unique (R.map (fun r => r.sentiment))).map (fun s =>
    let grp := R.filter (fun r => r.sentiment = s)
    (s, { count := grp.length
          percentage := ((grp.length : Rat) / (R.length : Rat)) * 100 }))

/-- One step of the daily_engagement loop (processor.py lines 85-91):
add the record's total to an existing date key, else insert the key at
the end (Python dicts preserve insertion order). -/
def addDaily (m : List (String × Nat)) (d : String) (t : Nat) : List (String × Nat) :=
  if m.any (fun e => e.1 = d) then
    m.map (fun e => if e.1 = d then (e.1, e.2 + t) else e)
  else
    m ++ [(d, t)]

/-- The daily_engagement accumulation over all rows (processor.py lines 81-91). -/
def daily_unsorted (R : List PostRecord) : List (String × Nat) :=
  R.foldl (fun m r => addDaily m (datePart r.date) (engTotal r)) []

/-- Lexicographic comparison of the underlying character lists, by code
point, exactly the order Python's sorted() applies to the date keys. -/
def charsLe : List Char → List Char → Bool
  | [], _ => true
  | _ :: _, [] => false
  | x :: xs, y :: ys => if x = y then charsLe xs ys else Nat.blt x.toNat y.toNat

/-- String comparison used by the sort of processor.py line 94. -/
def strLe (a b : String) : Bool := charsLe a.data b.data

/-- One insertion step of sorting the (key, value) pairs by key. -/
def insertByKey (p : String × Nat) : List (String × Nat) → List (String × Nat)
  | [] => [p]
  | q :: qs => if strLe p.1 q.1 then p :: q :: qs else q :: insertByKey p qs

/-- `dict(sorted(daily_engagement.items()))` (processor.py line 94): sort
the pairs ascending by key (the keys are distinct, so tuple comparison
never reaches the values). -/
def sortByKey : List (String × Nat) → List (String × Nat)
  | [] => []
  | p :: ps => insertByKey p (sortByKey ps)

/-- The metrics part of process_data (processor.py lines 22-114): the
empty-input early return of lines 24-35, else the aggregation passes.
The final int()/float() normalizations of lines 99-109 are identities
here since the fields already carry those types. -/
def process_data_metrics (R : List PostRecord) : Metrics :=
  if R.isEmpty then emptyMetrics
  else
    { total_posts := R.length
      total_engagement := (R.map engTotal).sum
      platform_stats := platform_stats_of R
      sentiment_stats := sentiment_stats_of R
      daily_engagement := sortByKey (daily_unsorted R)
      raw_data := R }

/-!
Stateful view of SocialMediaDataProcessor. `__init__` (processor.py lines
11-20) stores one mutable dict in `self.metrics`; the non-empty branch of
process_data overwrites that same dict's entries in place and returns it
(lines 39-114 end with `return {"metrics": self.metrics, ...}`), so the
returned snapshot aliases the processor's dict. The empty branch (lines
24-35) builds and returns a brand-new dict. `MetricsRef` records which of
the two a call handed back; `readRef` dereferences it against the current
processor state, the way a caller holding the returned object observes it.
-/

/-- The processor's instance state: the contents of `self.metrics`. -/
structure ProcessorState where
  metrics : Metrics
deriving DecidableEq

/-- What a process_data call returns to its caller: either an alias of the
processor's own `self.metrics` dict, or a freshly allocated dict. -/
inductive MetricsRef where
  | shared : MetricsRef
  | fresh : Metrics → MetricsRef
deriving DecidableEq

/-- The state `__init__` leaves behind (processor.py lines 12-19). -/
def initState : ProcessorState := { metrics := emptyMetrics }

/-- One process_data call, state-passing view: empty input returns a fresh
dict and leaves `self.metrics` alone; non-empty input overwrites
`self.metrics` with the recomputed fields and returns an alias to it. -/
def processDataCall (st : ProcessorState) (d : List PostRecord) :
    ProcessorState × MetricsRef :=
  if d.isEmpty then (st, MetricsRef.fresh emptyMetrics)
  else ({ metrics := process_data_metrics d }, MetricsRef.shared)

/-- Observing a returned snapshot under the current processor state. -/
def readRef (st : ProcessorState) : MetricsRef → Metrics
  | MetricsRef.shared => st.metrics
  | MetricsRef.fresh m => m

/-!
GeminiService.generate_insights (gemini_service.py) is a network call
decorated `@retry(stop=stop_after_attempt(3),
wait=wait_exponential(multiplier=1, min=4, max=10))`. The network outcome
of attempt n is an oracle parameter: `some insights` when the call
returns, `none` when it raises. tenacity retries until an attempt
succeeds or 3 attempts have failed, sleeping
`max(min, min(multiplier * 2 ** n, max))` after failed attempt n.
-/

/-- tenacity wait_exponential: the delay slept after failed attempt
number `n`, clamped between `mn` and `mx`. -/
def waitExponential (multiplier mn mx n : Nat) : Nat :=
  max mn (min (multiplier * 2 ^ n) mx)

/-- The retry loop: `fuel` attempts remain, the next one is numbered `n`;
returns the first successful outcome, or none when all attempts raised. -/
def retryGo (oracle : Nat → Option (List String)) : Nat → Nat → Option (List String)
  | 0, _ => none
  | Nat.succ fuel, n =>
    match oracle n with
    | some a => some a
    | none => retryGo oracle fuel (n + 1)

/-- generate_insights under its retry decorator: at most 3 attempts,
numbered from 1. -/
def generate_insights (oracle : Nat → Option (List String)) : Option (List String) :=
  retryGo oracle 3 1

/-- The delays tenacity sleeps between the 3 attempts when they fail. -/
def geminiRetryWaits : List Nat :=
  [waitExponential 1 4 10 1, waitExponential 1 4 10 2]

/-- The value process_data returns: the metrics dict and the insights list. -/
structure ProcessResult where
  metrics : Metrics
  insights : List String
deriving DecidableEq

/-- process_data in full (processor.py lines 22-114): the empty branch
returns zeroed metrics and the fixed message; the non-empty branch
computes the metrics, then calls generate_insights (line 96) with NO
exception handling, so when all its retries raise the exception escapes
process_data (modelled as `Except.error`) and nothing is returned. -/
def process_data (oracle : Nat → Option (List String)) (R : List PostRecord) :
    Except String ProcessResult :=
  if R.isEmpty then
    Except.ok { metrics := emptyMetrics, insights := ["No data available for analysis."] }
  else
    match generate_insights oracle with
    | none => Except.error "insight generation failed"
    | some ins => Except.ok { metrics := process_data_metrics R, insights := ins }

/-!
The /api/search endpoint (main.py lines 67-112). Network outcomes are
oracle parameters: `data` is what collect_data returned, `procOracle`
drives the generate_insights call made inside process_data, `mainOracle`
the endpoint's own guarded generate_insights call. The sheets calls are
wrapped in their own try/except that only logs, so they never change the
response and are omitted. Every exception raised inside the endpoint's
try block - including its own HTTPException(404) - is caught by the outer
`except Exception` and re-raised as status 500.
-/

/-- The body of search_brand up to the response: any escaping exception is
an `Except.error` carrying its message. -/
def search_brand_body (data : List PostRecord)
    (procOracle mainOracle : Nat → Option (List String)) :
    Except String (Metrics × List String) :=
  if data.isEmpty then Except.error "No data found for the specified brand"
  else
    match process_data procOracle data with
    | Except.error e => Except.error e
    | Except.ok results =>
      let insights :=
        match generate_insights mainOracle with
        | some ins =>
          if ins.isEmpty then ["No AI insights available at this time."] else ins
        | none => ["Unable to generate AI insights at this time."]
      Except.ok (results.metrics, insights)

/-- search_brand: the outer except turns any exception into HTTP 500. -/
def search_brand (data : List PostRecord)
    (procOracle mainOracle : Nat → Option (List String)) :
    Except Nat (Metrics × List String) :=
  match search_brand_body data procOracle mainOracle with
  | Except.ok r => Except.ok r
  | Except.error _ => Except.error 500

/-!
SocialMediaDataCollector (collector.py). The two I/O effects are oracle
parameters: `genOutcome` is what generate_simulated_data does (returns
records or raises), `writeOutcome` what the file write inside
save_data_to_json does.
-/

/-- save_data_to_json (collector.py lines 57-80): the whole body sits in a
try/except that logs the error and deliberately does not re-raise. -/
def save_data_to_json (writeOutcome : Except String Unit) : Except String Unit :=
  match writeOutcome with
  | Except.ok u => Except.ok u
  | Except.error _ => Except.ok ()

/-- collect_data (collector.py lines 82-108): generate the data, save it
(save_data_to_json swallows its own failures), and return it; any
exception escaping the try block yields `[]` instead of propagating. -/
def collect_data (genOutcome : Except String (List PostRecord))
    (writeOutcome : Except String Unit) : Except String (List PostRecord) :=
  match
    (do
      let data ← genOutcome
      let _ ← save_data_to_json writeOutcome
      pure data : Except String (List PostRecord)) with
  | Except.ok d => Except.ok d
  | Except.error _ => Except.ok []

/-- Concrete record: platform "X", sentiment "positive", date 2024-01-01,
engagement (10, 0, 0). -/
def rec1 : PostRecord :=
  { platform := "X", date := "2024-01-01 10:00:00", content := "p1",
    engagement := { likes := 10, comments := 0, shares := 0 },
    sentiment := "positive", url := "u1" }

/-- Concrete record: platform "X", sentiment "negative", date 2024-01-02,
engagement (20, 0, 0). -/
def rec2 : PostRecord :=
  { platform := "X", date := "2024-01-02 11:00:00", content := "p2",
    engagement := { likes := 20, comments := 0, shares := 0 },
    sentiment := "negative", url := "u2" }

/-- The platform_stats entry process_data builds for the input [rec1]. -/
def pstat1 : PlatformStat :=
  { total_engagement := 10, posts := 1, avg_engagement := 10 }

/-- The total engagement recorded against date key `d` in an association
list: the sum of the values of the entries whose key is `d` (for the
lists built by addDaily the keys are distinct, so this is the unique
entry's value, or 0 when the key is absent). -/
def dayTotal (m : List (String × Nat)) (d : String) : Nat :=
  ((m.filter (fun e => e.1 = d)).map Prod.snd).sum

/-! Lemmas about `unique` (df[col].unique()). -/

theorem mem_uniqueAux (a : String) : ∀ (l seen : List String),
    a ∈ uniqueAux seen l ↔ a ∈ l ∧ a ∉ seen := by
  intro l
  induction l with
  | nil => intro seen; simp [uniqueAux]
  | cons x xs ih =>
    intro seen
    by_cases hx : x ∈ seen
    · by_cases hax : a = x
      · subst hax; simp [uniqueAux, if_pos hx, ih, hx]
      · simp [uniqueAux, if_pos hx, ih, hax]
    · by_cases hax : a = x
      · subst hax; simp [uniqueAux, if_neg hx, ih, hx]
      · simp [uniqueAux, if_neg hx, ih, hax]

theorem nodup_uniqueAux : ∀ (l seen : List String), (uniqueAux seen l).Nodup := by
  intro l
  induction l with
  | nil => intro seen; simp [uniqueAux]
  | cons x xs ih =>
    intro seen
    by_cases hx : x ∈ seen
    · simpa [uniqueAux, if_pos hx] using ih seen
    · simp only [uniqueAux, if_neg hx, List.nodup_cons]
      refine ⟨fun hmem => ?_, ih (x :: seen)⟩
      exact ((mem_uniqueAux x xs (x :: seen)).mp hmem).2 (List.mem_cons_self x seen)

theorem mem_unique (a : String) (l : List String) : a ∈ unique l ↔ a ∈ l := by
  simp [unique, mem_uniqueAux]

theorem nodup_unique (l : List String) : (unique l).Nodup := nodup_uniqueAux l []

/-! Counting lemmas: the per-group row counts partition the rows. -/

theorem sum_map_addf {α : Type} (f g : α → Nat) (l : List α) :
    (l.map (fun x => f x + g x)).sum = (l.map f).sum + (l.map g).sum := by
  induction l with
  | nil => simp
  | cons x xs ih => simp [ih]; omega

theorem sum_indicator_zero (a : String) : ∀ (ks : List String), a ∉ ks →
    (ks.map (fun k => if a = k then 1 else 0)).sum = 0 := by
  intro ks
  induction ks with
  | nil => simp
  | cons k ks ih =>
    intro h
    have hak : a ≠ k := fun e => h (e ▸ List.mem_cons_self k ks)
    have hks : a ∉ ks := fun e => h (List.mem_cons_of_mem k e)
    simp [hak, ih hks]

theorem sum_indicator_one (a : String) : ∀ (ks : List String), ks.Nodup → a ∈ ks →
    (ks.map (fun k => if a = k then 1 else 0)).sum = 1 := by
  intro ks
  induction ks with
  | nil => intro _ h; exact absurd h (List.not_mem_nil a)
  | cons k ks ih =>
    intro hnd ha
    by_cases hak : a = k
    · subst hak
      have : a ∉ ks := (List.nodup_cons.mp hnd).1
      simp [sum_indicator_zero a ks this]
    · have := List.mem_cons.mp ha
      have haks : a ∈ ks := this.resolve_left hak
      simp [hak, ih (List.nodup_cons.mp hnd).2 haks]

theorem sum_filter_length {α : Type} (key : α → String) :
    ∀ (l : List α) (ks : List String), ks.Nodup → (∀ x ∈ l, key x ∈ ks) →
      (ks.map (fun k => (l.filter (fun x => key x = k)).length)).sum = l.length := by
  intro l
  induction l with
  | nil => intro ks _ _; simp
  | cons x xs ih =>
    intro ks hnd hcov
    have hx : key x ∈ ks := hcov x (List.mem_cons_self x xs)
    have hxs : ∀ y ∈ xs, key y ∈ ks := fun y hy => hcov y (List.mem_cons_of_mem x hy)
    have hstep : ∀ k, ((x :: xs).filter (fun y => key y = k)).length
        = (if key x = k then 1 else 0) + (xs.filter (fun y => key y = k)).length := by
      intro k
      by_cases h : key x = k
      · simp [List.filter_cons, h]
        omega
      · simp [List.filter_cons, h]
    calc (ks.map (fun k => ((x :: xs).filter (fun y => key y = k)).length)).sum
        = (ks.map (fun k =>
            (if key x = k then 1 else 0) + (xs.filter (fun y => key y = k)).length)).sum := by
          exact congrArg List.sum (List.map_congr_left (fun k _ => hstep k))
      _ = (ks.map (fun k => if key x = k then 1 else 0)).sum
            + (ks.map (fun k => (xs.filter (fun y => key y = k)).length)).sum :=
          sum_map_addf _ _ ks
      _ = 1 + xs.length := by rw [sum_indicator_one (key x) ks hnd hx, ih ks hnd hxs]
      _ = (x :: xs).length := by simp [Nat.add_comm]

theorem map_self {α : Type} : ∀ l : List α, l.map (fun a => a) = l := by
  intro l
  induction l with
  | nil => rfl
  | cons a l ih => simp [ih]

theorem keys_platform_stats (R : List PostRecord) :
    (platform_stats_of R).map Prod.fst = unique (R.map (fun r => r.platform)) := by
  rw [platform_stats_of, List.map_map]
  exact Eq.trans (List.map_congr_left (fun p _ => rfl)) (map_self _)

theorem posts_platform_stats (R : List PostRecord) :
    (platform_stats_of R).map (fun e => e.2.posts)
      = (unique (R.map (fun r => r.platform))).map
          (fun p => (R.filter (fun r => r.platform = p)).length) := by
  rw [platform_stats_of, List.map_map]
  exact List.map_congr_left (fun p _ => rfl)

theorem keys_sentiment_stats (R : List PostRecord) :
    (sentiment_stats_of R).map Prod.fst = unique (R.map (fun r => r.sentiment)) := by
  rw [sentiment_stats_of, List.map_map]
  exact Eq.trans (List.map_congr_left (fun p _ => rfl)) (map_self _)

theorem counts_sentiment_stats (R : List PostRecord) :
    (sentiment_stats_of R).map (fun e => e.2.count)
      = (unique (R.map (fun r => r.sentiment))).map
          (fun s => (R.filter (fun r => r.sentiment = s)).length) := by
  rw [sentiment_stats_of, List.map_map]
  exact List.map_congr_left (fun s _ => rfl)

/-- C4: for every input sequence R, platform_stats has exactly one entry per
distinct platform string observed in R (exact string match, no fixed
enumeration), and the posts counts over all entries sum to total_posts,
which equals the length of R. -/
theorem C4_platform_stats_partition (R : List PostRecord) :
    ((process_data_metrics R).platform_stats.map Prod.fst).Nodup ∧
    (∀ p, p ∈ (process_data_metrics R).platform_stats.map Prod.fst ↔
       p ∈ R.map (fun r => r.platform)) ∧
    ((process_data_metrics R).platform_stats.map (fun e => e.2.posts)).sum
      = (process_data_metrics R).total_posts ∧
    (process_data_metrics R).total_posts = R.length := by
  cases R with
  | nil => simp [process_data_metrics, emptyMetrics]
  | cons r R =>
    have hps : (process_data_metrics (r :: R)).platform_stats
        = platform_stats_of (r :: R) := by
      simp [process_data_metrics]
    have htp : (process_data_metrics (r :: R)).total_posts = (r :: R).length := by
      simp [process_data_metrics]
    refine ⟨?_, ?_, ?_, htp⟩
    · rw [hps, keys_platform_stats]
      exact nodup_unique _
    · intro p
      rw [hps, keys_platform_stats, mem_unique]
    · rw [hps, htp, posts_platform_stats]
      exact sum_filter_length (fun r => r.platform) (r :: R) _
        (nodup_unique _)
        (fun x hx => (mem_unique _ _).mpr (List.mem_map_of_mem _ hx))

/-- C5: for every input sequence R, sentiment_stats has one entry per
distinct sentiment string observed in R (no fixed set of values assumed),
and the counts over all entries sum to total_posts. -/
theorem C5_sentiment_stats_partition (R : List PostRecord) :
    ((process_data_metrics R).sentiment_stats.map Prod.fst).Nodup ∧
    (∀ s, s ∈ (process_data_metrics R).sentiment_stats.map Prod.fst ↔
       s ∈ R.map (fun r => r.sentiment)) ∧
    ((process_data_metrics R).sentiment_stats.map (fun e => e.2.count)).sum
      = (process_data_metrics R).total_posts := by
  cases R with
  | nil => simp [process_data_metrics, emptyMetrics]
  | cons r R =>
    have hss : (process_data_metrics (r :: R)).sentiment_stats
        = sentiment_stats_of (r :: R) := by
      simp [process_data_metrics]
    have htp : (process_data_metrics (r :: R)).total_posts = (r :: R).length := by
      simp [process_data_metrics]
    refine ⟨?_, ?_, ?_⟩
    · rw [hss, keys_sentiment_stats]
      exact nodup_unique _
    · intro s
      rw [hss, keys_sentiment_stats, mem_unique]
    · rw [hss, htp, counts_sentiment_stats]
      exact sum_filter_length (fun r => r.sentiment) (r :: R) _
        (nodup_unique _)
        (fun x hx => (mem_unique _ _).mpr (List.mem_map_of_mem _ hx))

/-- Membership in platform_stats, unfolded to the three field values the
loop of processor.py lines 55-67 assigns. -/
theorem mem_platform_stats (R : List PostRecord) (p : String) (st : PlatformStat) :
    (p, st) ∈ platform_stats_of R ↔
      p ∈ unique (R.map (fun r => r.platform)) ∧
      st.total_engagement = ((R.filter (fun r => r.platform = p)).map engTotal).sum ∧
      st.posts = (R.filter (fun r => r.platform = p)).length ∧
      st.avg_engagement = (if 0 < (R.filter (fun r => r.platform = p)).length
          then (((R.filter (fun r => r.platform = p)).map engTotal).sum : Rat)
                 / ((R.filter (fun r => r.platform = p)).length : Rat)
          else 0) := by
  rw [platform_stats_of]
  constructor
  · intro hmem
    rcases List.mem_map.mp hmem with ⟨q, hq, heq⟩
    have h1 : q = p := congrArg Prod.fst heq
    subst h1
    have hsnd : ({ total_engagement := ((R.filter (fun r => r.platform = q)).map engTotal).sum
                   posts := (R.filter (fun r => r.platform = q)).length
                   avg_engagement := if 0 < (R.filter (fun r => r.platform = q)).length
                     then (((R.filter (fun r => r.platform = q)).map engTotal).sum : Rat)
                            / ((R.filter (fun r => r.platform = q)).length : Rat)
                     else 0 } : PlatformStat) = st := congrArg Prod.snd heq
    refine ⟨hq, ?_, ?_, ?_⟩
    · exact (congrArg PlatformStat.total_engagement hsnd).symm
    · exact (congrArg PlatformStat.posts hsnd).symm
    · exact (congrArg PlatformStat.avg_engagement hsnd).symm
  · intro h
    obtain ⟨hq, h1, h2, h3⟩ := h
    obtain ⟨a, b, c⟩ := st
    simp only at h1 h2 h3
    subst h1
    subst h2
    subst h3
    exact List.mem_map.mpr ⟨p, hq, rfl⟩

/-- Membership in sentiment_stats, unfolded to the field values the loop
of processor.py lines 70-78 assigns. -/
theorem mem_sentiment_stats (R : List PostRecord) (s : String) (st : SentimentStat) :
    (s, st) ∈ sentiment_stats_of R ↔
      s ∈ unique (R.map (fun r => r.sentiment)) ∧
      st.count = (R.filter (fun r => r.sentiment = s)).length ∧
      st.percentage = ((R.filter (fun r => r.sentiment = s)).length : Rat)
          / (R.length : Rat) * 100 := by
  rw [sentiment_stats_of]
  constructor
  · intro hmem
    rcases List.mem_map.mp hmem with ⟨q, hq, heq⟩
    have h1 : q = s := congrArg Prod.fst heq
    subst h1
    have hsnd : ({ count := (R.filter (fun r => r.sentiment = q)).length
                   percentage := ((R.filter (fun r => r.sentiment = q)).length : Rat)
                       / (R.length : Rat) * 100 } : SentimentStat) = st :=
      congrArg Prod.snd heq
    refine ⟨hq, ?_, ?_⟩
    · exact (congrArg SentimentStat.count hsnd).symm
    · exact (congrArg SentimentStat.percentage hsnd).symm
  · intro h
    obtain ⟨hq, h1, h2⟩ := h
    obtain ⟨a, b⟩ := st
    simp only at h1 h2
    subst h1
    subst h2
    exact List.mem_map.mpr ⟨s, hq, rfl⟩

/-- C3: every division process_data performs has a positive divisor: each
platform entry satisfies posts > 0 with avg_engagement equal to the
guarded quotient total_engagement/posts, and each sentiment entry is only
computed when total_posts > 0, with percentage = 100*count/total_posts;
so no division-by-zero error occurs and neither ratio is NaN or Inf. -/
theorem C3_zero_guarded_ratios (R : List PostRecord) :
    (∀ p st, (p, st) ∈ (process_data_metrics R).platform_stats →
       0 < st.posts ∧
       st.avg_engagement = (st.total_engagement : Rat) / (st.posts : Rat)) ∧
    (∀ s st, (s, st) ∈ (process_data_metrics R).sentiment_stats →
       0 < (process_data_metrics R).total_posts ∧
       st.percentage = 100 * (st.count : Rat)
           / ((process_data_metrics R).total_posts : Rat)) := by
  cases R with
  | nil =>
    constructor
    · intro p st h
      simp [process_data_metrics, emptyMetrics] at h
    · intro s st h
      simp [process_data_metrics, emptyMetrics] at h
  | cons r R =>
    have hps : (process_data_metrics (r :: R)).platform_stats
        = platform_stats_of (r :: R) := by
      simp [process_data_metrics]
    have hss : (process_data_metrics (r :: R)).sentiment_stats
        = sentiment_stats_of (r :: R) := by
      simp [process_data_metrics]
    have htp : (process_data_metrics (r :: R)).total_posts = (r :: R).length := by
      simp [process_data_metrics]
    constructor
    · intro p st hmem
      rw [hps] at hmem
      obtain ⟨hp, hte, hposts, havg⟩ := (mem_platform_stats _ _ _).mp hmem
      have hx : p ∈ (r :: R).map (fun y => y.platform) := (mem_unique _ _).mp hp
      rcases List.mem_map.mp hx with ⟨x, hxR, hxp⟩
      have hxf : x ∈ (r :: R).filter (fun y => y.platform = p) :=
        List.mem_filter.mpr ⟨hxR, by simp [hxp]⟩
      have hpos : 0 < ((r :: R).filter (fun y => y.platform = p)).length :=
        List.length_pos.mpr (List.ne_nil_of_mem hxf)
      refine ⟨hposts ▸ hpos, ?_⟩
      rw [havg, if_pos hpos, hte, hposts]
    · intro s st hmem
      rw [hss] at hmem
      obtain ⟨hs, hcnt, hpct⟩ := (mem_sentiment_stats _ _ _).mp hmem
      refine ⟨htp ▸ (r :: R).length_pos_of_ne_nil (List.cons_ne_nil r R), ?_⟩
      rw [hpct, hcnt, htp]
      ring


/-- C1 counterexample: process_data does NOT return a fresh, never-mutated
snapshot. After aggregating [rec1] the caller holds a reference into the
processor's shared self.metrics dict; the next aggregation call (on
[rec2]) mutates that dict in place, so reading the first snapshot after
the second call no longer gives the value it had when returned. -/
theorem C1_counterexample_snapshot_mutated :
    readRef (processDataCall (processDataCall initState [rec1]).1 [rec2]).1
        (processDataCall initState [rec1]).2
      ≠ readRef (processDataCall initState [rec1]).1
          (processDataCall initState [rec1]).2 := by
  intro h
  have h2 : (20 : Nat) = (10 : Nat) := congrArg Metrics.total_engagement h
  exact absurd h2 (by decide)

/-- C1 amended: aggregation is deterministic at the value level (the same
input processed again reads back an identical snapshot), but every
non-empty call returns the alias of the processor's single shared
self.metrics dict, freshly overwritten with the metrics of that call's
input; only the empty-input path returns a fresh dict. -/
theorem C1_shared_state_amended (st : ProcessorState) (d : List PostRecord)
    (h : d ≠ []) :
    (processDataCall st d).2 = MetricsRef.shared ∧
    readRef (processDataCall st d).1 (processDataCall st d).2
      = process_data_metrics d ∧
    readRef (processDataCall (processDataCall st d).1 d).1
        (processDataCall (processDataCall st d).1 d).2
      = readRef (processDataCall st d).1 (processDataCall st d).2 := by
  have hne : d.isEmpty = false := by
    cases d with
    | nil => exact absurd rfl h
    | cons a l => rfl
  simp [processDataCall, hne, readRef]

theorem C1_shared_state_amended_witness :
    ([rec1] ≠ ([] : List PostRecord)) ∧
    ((processDataCall initState [rec1]).2 = MetricsRef.shared ∧
     readRef (processDataCall initState [rec1]).1 (processDataCall initState [rec1]).2
       = process_data_metrics [rec1] ∧
     readRef (processDataCall (processDataCall initState [rec1]).1 [rec1]).1
         (processDataCall (processDataCall initState [rec1]).1 [rec1]).2
       = readRef (processDataCall initState [rec1]).1
           (processDataCall initState [rec1]).2) :=
  ⟨by decide, C1_shared_state_amended initState [rec1] (by decide)⟩

/-- C2, behaviour at the failing input: the retry policy is 3 attempts
with every inter-attempt delay in [4, 10] (here both are 4), and the
endpoint's own insight call does substitute a fallback; but process_data
calls generate_insights with no handler, so when all of that call's
retries raise, the exception escapes process_data and search_brand
answers 500 - the already-computed metrics never reach the requester. -/
theorem C2_unguarded_insight_call_drops_snapshot :
    search_brand [rec1, rec2] (fun _ => none) (fun _ => some ["insight"])
      = Except.error 500 ∧
    process_data (fun _ => none) [rec1, rec2]
      = Except.error "insight generation failed" ∧
    geminiRetryWaits = [4, 4] ∧
    (∀ w ∈ geminiRetryWaits, 4 ≤ w ∧ w ≤ 10) ∧
    search_brand [rec1, rec2] (fun _ => some ["insight"]) (fun _ => none)
      = Except.ok (process_data_metrics [rec1, rec2],
          ["Unable to generate AI insights at this time."]) :=
  ⟨rfl, rfl, by decide, by decide, rfl⟩

theorem C3_zero_guarded_ratios_witness :
    (("X", pstat1) ∈ (process_data_metrics [rec1]).platform_stats) ∧
    (0 < pstat1.posts ∧
     pstat1.avg_engagement = (pstat1.total_engagement : Rat) / (pstat1.posts : Rat)) := by
  have hmem : ("X", pstat1) ∈ (process_data_metrics [rec1]).platform_stats := by
    rw [show (process_data_metrics [rec1]).platform_stats
        = platform_stats_of [rec1] from by simp [process_data_metrics]]
    refine (mem_platform_stats _ _ _).mpr ⟨by decide, ?_, ?_, ?_⟩
    · decide
    · decide
    · rw [show [rec1].filter (fun r => r.platform = "X") = [rec1] from by decide]
      norm_num [engTotal, rec1, pstat1]
  exact ⟨hmem, (C3_zero_guarded_ratios [rec1]).1 "X" _ hmem⟩

/-- C8: the empty input is not an error: process_data returns a snapshot
with every numeric field zero and every mapping empty, raw_data empty,
plus the fixed human-readable no-data message, as an ordinary (Except.ok)
result, whatever the insight service would have answered. -/
theorem C8_empty_input_snapshot (oracle : Nat → Option (List String)) :
    process_data oracle [] =
      Except.ok { metrics := emptyMetrics
                  insights := ["No data available for analysis."] } ∧
    emptyMetrics.total_posts = 0 ∧ emptyMetrics.total_engagement = 0 ∧
    emptyMetrics.platform_stats = [] ∧ emptyMetrics.sentiment_stats = [] ∧
    emptyMetrics.daily_engagement = [] ∧ emptyMetrics.raw_data = [] :=
  ⟨rfl, rfl, rfl, rfl, rfl, rfl, rfl⟩

/-- C9: the two-record scenario: both on platform "X", sentiments positive
and negative, dates 2024-01-01 and 2024-01-02, engagements (10,0,0) and
(20,0,0), aggregate to exactly the specified snapshot values. -/
theorem C9_concrete_scenario :
    (process_data_metrics [rec1, rec2]).total_posts = 2 ∧
    (process_data_metrics [rec1, rec2]).total_engagement = 30 ∧
    (process_data_metrics [rec1, rec2]).platform_stats
      = [("X", { total_engagement := 30, posts := 2, avg_engagement := 15 })] ∧
    (process_data_metrics [rec1, rec2]).sentiment_stats
      = [("positive", { count := 1, percentage := 50 }),
         ("negative", { count := 1, percentage := 50 })] ∧
    (process_data_metrics [rec1, rec2]).daily_engagement
      = [("2024-01-01", 10), ("2024-01-02", 20)] := by
  refine ⟨by decide, by decide, ?_, ?_, by decide⟩
  · rw [show (process_data_metrics [rec1, rec2]).platform_stats
        = platform_stats_of [rec1, rec2] from by simp [process_data_metrics]]
    rw [platform_stats_of]
    rw [show unique ([rec1, rec2].map (fun r => r.platform)) = ["X"] from by decide]
    simp only [List.map]
    rw [show [rec1, rec2].filter (fun r => r.platform = "X") = [rec1, rec2] from by decide]
    norm_num [engTotal, rec1, rec2]
  · rw [show (process_data_metrics [rec1, rec2]).sentiment_stats
        = sentiment_stats_of [rec1, rec2] from by simp [process_data_metrics]]
    rw [sentiment_stats_of]
    rw [show unique ([rec1, rec2].map (fun r => r.sentiment))
        = ["positive", "negative"] from by decide]
    simp only [List.map]
    rw [show [rec1, rec2].filter (fun r => r.sentiment = "positive") = [rec1] from by decide]
    rw [show [rec1, rec2].filter (fun r => r.sentiment = "negative") = [rec2] from by decide]
    norm_num

/-- C10: collect_data never raises: whatever its data generation and file
write do, it answers normally - the empty list when generation failed,
and the generated data otherwise, a failed save notwithstanding. -/
theorem C10_collect_data_never_raises (g : Except String (List PostRecord))
    (w : Except String Unit) :
    (∃ d, collect_data g w = Except.ok d) ∧
    (∀ e, collect_data (Except.error e) w = Except.ok []) ∧
    (∀ d, collect_data (Except.ok d) w = Except.ok d) := by
  refine ⟨?_, ?_, ?_⟩
  · cases g with
    | error e => exact ⟨[], rfl⟩
    | ok d =>
      cases w with
      | error e => exact ⟨d, rfl⟩
      | ok u => exact ⟨d, rfl⟩
  · intro e
    rfl
  · intro d
    cases w with
    | error e => rfl
    | ok u => rfl

/-! Lemmas about the daily_engagement accumulation. -/

theorem any_key_iff (m : List (String × Nat)) (d : String) :
    m.any (fun e => e.1 = d) = true ↔ d ∈ m.map Prod.fst := by
  simp [List.any_eq_true, List.mem_map]

theorem update_id (d : String) (t : Nat) : ∀ (m : List (String × Nat)),
    d ∉ m.map Prod.fst →
    m.map (fun e => if e.1 = d then (e.1, e.2 + t) else e) = m := by
  intro m
  induction m with
  | nil => intro _; rfl
  | cons e m ih =>
    intro h
    have h1 : e.1 ≠ d := by
      intro he
      exact h (by simp [← he])
    have h2 : d ∉ m.map Prod.fst := fun hm => h (by simp [hm])
    simp [h1, ih h2]

theorem keys_addDaily (m : List (String × Nat)) (d : String) (t : Nat) :
    (addDaily m d t).map Prod.fst
      = if d ∈ m.map Prod.fst then m.map Prod.fst else m.map Prod.fst ++ [d] := by
  rw [addDaily]
  by_cases h : d ∈ m.map Prod.fst
  · rw [if_pos ((any_key_iff m d).mpr h), if_pos h, List.map_map]
    apply List.map_congr_left
    intro e _
    by_cases h1 : e.1 = d
    · simp [h1]
    · simp [h1]
  · have hna : ¬ (m.any (fun e => e.1 = d) = true) :=
      fun hc => h ((any_key_iff m d).mp hc)
    rw [if_neg hna, if_neg h]
    simp

theorem nodup_keys_addDaily (m : List (String × Nat)) (d : String) (t : Nat)
    (h : (m.map Prod.fst).Nodup) : ((addDaily m d t).map Prod.fst).Nodup := by
  rw [keys_addDaily]
  by_cases hd : d ∈ m.map Prod.fst
  · rw [if_pos hd]
    exact h
  · rw [if_neg hd]
    rw [List.nodup_append]
    refine ⟨h, List.nodup_singleton d, ?_⟩
    intro a ha hd1
    rw [List.mem_singleton.mp hd1] at ha
    exact hd ha

theorem sum_snd_update (d : String) (t : Nat) : ∀ (m : List (String × Nat)),
    (m.map Prod.fst).Nodup → d ∈ m.map Prod.fst →
    ((m.map (fun e => if e.1 = d then (e.1, e.2 + t) else e)).map Prod.snd).sum
      = (m.map Prod.snd).sum + t := by
  intro m
  induction m with
  | nil =>
    intro _ h
    simp at h
  | cons e m ih =>
    intro hnd hd
    simp only [List.map_cons] at hnd
    rcases List.nodup_cons.mp hnd with ⟨hne, hnm⟩
    by_cases h1 : e.1 = d
    · have hdm : d ∉ m.map Prod.fst := h1 ▸ hne
      rw [List.map_cons, update_id d t m hdm]
      simp [h1]
      omega
    · have hdm : d ∈ m.map Prod.fst := by
        rw [List.map_cons] at hd
        rcases List.mem_cons.mp hd with hc | hc
        · exact absurd hc.symm h1
        · exact hc
      simp only [List.map_cons, List.sum_cons]
      rw [ih hnm hdm]
      simp [h1]
      omega

theorem sum_snd_addDaily (m : List (String × Nat)) (d : String) (t : Nat)
    (h : (m.map Prod.fst).Nodup) :
    ((addDaily m d t).map Prod.snd).sum = (m.map Prod.snd).sum + t := by
  rw [addDaily]
  by_cases hd : d ∈ m.map Prod.fst
  · rw [if_pos ((any_key_iff m d).mpr hd)]
    exact sum_snd_update d t m h hd
  · rw [if_neg (fun hc => hd ((any_key_iff m d).mp hc))]
    simp

theorem dayTotal_zero (d : String) : ∀ (m : List (String × Nat)),
    d ∉ m.map Prod.fst → dayTotal m d = 0 := by
  intro m
  induction m with
  | nil => intro _; rfl
  | cons e m ih =>
    intro h
    have h1 : e.1 ≠ d := by
      intro he
      exact h (by simp [← he])
    have h2 : d ∉ m.map Prod.fst := fun hm => h (by simp [hm])
    simp only [dayTotal, List.filter_cons]
    simp [h1]
    simpa [dayTotal] using ih h2

theorem filter_update_ne (d' : String) (t : Nat) (d : String) (hne : d' ≠ d) :
    ∀ (m : List (String × Nat)),
    (m.map (fun e => if e.1 = d' then (e.1, e.2 + t) else e)).filter (fun e => e.1 = d)
      = m.filter (fun e => e.1 = d) := by
  intro m
  induction m with
  | nil => rfl
  | cons e m ih =>
    simp only [List.map_cons]
    by_cases h1 : e.1 = d'
    · have h2 : e.1 ≠ d := by
        rw [h1]
        exact hne
      rw [List.filter_cons, List.filter_cons]
      simp [h1, h2, hne, ih]
    · rw [List.filter_cons, List.filter_cons]
      simp only [if_pos, if_neg h1]
      by_cases h2 : e.1 = d
      · simp [h2, ih]
      · simp [h2, ih]

theorem dayTotal_update_eq (d : String) (t : Nat) : ∀ (m : List (String × Nat)),
    (m.map Prod.fst).Nodup → d ∈ m.map Prod.fst →
    dayTotal (m.map (fun e => if e.1 = d then (e.1, e.2 + t) else e)) d
      = dayTotal m d + t := by
  intro m
  induction m with
  | nil =>
    intro _ h
    simp at h
  | cons e m ih =>
    intro hnd hd
    simp only [List.map_cons] at hnd
    rcases List.nodup_cons.mp hnd with ⟨hne, hnm⟩
    by_cases h1 : e.1 = d
    · have hdm : d ∉ m.map Prod.fst := h1 ▸ hne
      rw [List.map_cons, update_id d t m hdm]
      have hz := dayTotal_zero d m hdm
      simp only [dayTotal, List.filter_cons] at hz ⊢
      simp [h1] at hz ⊢
      simp [hz]
    · have hdm : d ∈ m.map Prod.fst := by
        rw [List.map_cons] at hd
        rcases List.mem_cons.mp hd with hc | hc
        · exact absurd hc.symm h1
        · exact hc
      have hrec := ih hnm hdm
      rw [List.map_cons]
      simp only [dayTotal, List.filter_cons] at hrec ⊢
      simp [h1]
      simpa using hrec

theorem dayTotal_addDaily (m : List (String × Nat)) (dn : String) (t : Nat) (d : String)
    (h : (m.map Prod.fst).Nodup) :
    dayTotal (addDaily m dn t) d = dayTotal m d + (if dn = d then t else 0) := by
  rw [addDaily]
  by_cases hmem : dn ∈ m.map Prod.fst
  · rw [if_pos ((any_key_iff m dn).mpr hmem)]
    by_cases hdd : dn = d
    · subst hdd
      rw [dayTotal_update_eq dn t m h hmem]
      simp
    · rw [dayTotal, filter_update_ne dn t d hdd m]
      simp [dayTotal, hdd]
  · rw [if_neg (fun hc => hmem ((any_key_iff m dn).mp hc))]
    rw [dayTotal, List.filter_append]
    by_cases hdd : dn = d
    · simp [dayTotal, hdd]
    · simp [dayTotal, hdd]

theorem nodup_keys_daily_foldl (R : List PostRecord) : ∀ (m : List (String × Nat)),
    (m.map Prod.fst).Nodup →
    ((R.foldl (fun m r => addDaily m (datePart r.date) (engTotal r)) m).map Prod.fst).Nodup := by
  induction R with
  | nil =>
    intro m h
    simpa using h
  | cons r R ih =>
    intro m h
    simp only [List.foldl_cons]
    exact ih _ (nodup_keys_addDaily m _ _ h)

theorem nodup_keys_daily_unsorted (R : List PostRecord) :
    ((daily_unsorted R).map Prod.fst).Nodup :=
  nodup_keys_daily_foldl R [] (by simp)

theorem sum_snd_daily_foldl (R : List PostRecord) : ∀ (m : List (String × Nat)),
    (m.map Prod.fst).Nodup →
    ((R.foldl (fun m r => addDaily m (datePart r.date) (engTotal r)) m).map Prod.snd).sum
      = (m.map Prod.snd).sum + (R.map engTotal).sum := by
  induction R with
  | nil =>
    intro m _
    simp
  | cons r R ih =>
    intro m h
    simp only [List.foldl_cons, List.map_cons, List.sum_cons]
    rw [ih _ (nodup_keys_addDaily m _ _ h), sum_snd_addDaily m _ _ h]
    omega

theorem dayTotal_daily_foldl (R : List PostRecord) : ∀ (m : List (String × Nat)),
    (m.map Prod.fst).Nodup → ∀ d,
    dayTotal (R.foldl (fun m r => addDaily m (datePart r.date) (engTotal r)) m) d
      = dayTotal m d + ((R.filter (fun r => datePart r.date = d)).map engTotal).sum := by
  induction R with
  | nil =>
    intro m _ d
    simp
  | cons r R ih =>
    intro m h d
    simp only [List.foldl_cons]
    rw [ih _ (nodup_keys_addDaily m _ _ h) d, dayTotal_addDaily m _ _ d h]
    rw [List.filter_cons]
    by_cases hdd : datePart r.date = d
    · simp [hdd]
      omega
    · simp [hdd]

theorem dayTotal_of_mem (d : String) (t : Nat) : ∀ (m : List (String × Nat)),
    (m.map Prod.fst).Nodup → (d, t) ∈ m → dayTotal m d = t := by
  intro m
  induction m with
  | nil =>
    intro _ h
    simp at h
  | cons e m ih =>
    intro hnd hm
    simp only [List.map_cons] at hnd
    rcases List.nodup_cons.mp hnd with ⟨hne, hnm⟩
    rcases List.mem_cons.mp hm with he | hm
    · have hd1 : e.1 = d := by rw [← he]
      have hdm : d ∉ m.map Prod.fst := hd1 ▸ hne
      have hz := dayTotal_zero d m hdm
      simp only [dayTotal, List.filter_cons] at hz ⊢
      simp [hd1, ← he]
      simpa [dayTotal] using hz
    · have h1 : e.1 ≠ d := by
        intro h
        exact hne (h ▸ List.mem_map_of_mem Prod.fst hm)
      simp only [dayTotal, List.filter_cons]
      simp [h1]
      simpa [dayTotal] using ih hnm hm

theorem mem_keys_addDaily (m : List (String × Nat)) (dn : String) (t : Nat) (d : String) :
    d ∈ (addDaily m dn t).map Prod.fst ↔ d ∈ m.map Prod.fst ∨ d = dn := by
  rw [keys_addDaily]
  by_cases h : dn ∈ m.map Prod.fst
  · rw [if_pos h]
    constructor
    · exact Or.inl
    · rintro (hm | rfl)
      · exact hm
      · exact h
  · rw [if_neg h]
    simp [List.mem_append]

theorem mem_keys_daily_foldl (R : List PostRecord) : ∀ (m : List (String × Nat)) (d : String),
    d ∈ (R.foldl (fun m r => addDaily m (datePart r.date) (engTotal r)) m).map Prod.fst
      ↔ d ∈ m.map Prod.fst ∨ ∃ r ∈ R, datePart r.date = d := by
  induction R with
  | nil =>
    intro m d
    simp
  | cons r R ih =>
    intro m d
    simp only [List.foldl_cons]
    rw [ih, mem_keys_addDaily]
    constructor
    · rintro ((hm | rfl) | ⟨x, hx, hxd⟩)
      · exact Or.inl hm
      · exact Or.inr ⟨r, List.mem_cons_self r R, rfl⟩
      · exact Or.inr ⟨x, List.mem_cons_of_mem r hx, hxd⟩
    · rintro (hm | ⟨x, hx, hxd⟩)
      · exact Or.inl (Or.inl hm)
      · rcases List.mem_cons.mp hx with rfl | hx
        · exact Or.inl (Or.inr hxd.symm)
        · exact Or.inr ⟨x, hx, hxd⟩

/-! The sort of processor.py line 94: permutation and sortedness. -/

theorem insertByKey_perm (p : String × Nat) : ∀ l, (insertByKey p l).Perm (p :: l) := by
  intro l
  induction l with
  | nil => exact List.Perm.refl _
  | cons q qs ih =>
    rw [insertByKey]
    by_cases h : strLe p.1 q.1 = true
    · rw [if_pos h]
    · rw [if_neg h]
      exact (List.Perm.cons q ih).trans (List.Perm.swap p q qs)

theorem sortByKey_perm : ∀ l, (sortByKey l).Perm l := by
  intro l
  induction l with
  | nil => exact List.Perm.refl _
  | cons p ps ih =>
    exact (insertByKey_perm p (sortByKey ps)).trans (List.Perm.cons p ih)

theorem charsLe_iff : ∀ (xs ys : List Char), charsLe xs ys = true ↔ xs ≤ ys := by
  intro xs
  induction xs with
  | nil =>
    intro ys
    exact iff_of_true rfl List.nil_le
  | cons x xs ih =>
    intro ys
    cases ys with
    | nil =>
      apply iff_of_false
      · simp [charsLe]
      · exact (List.nil_lt_cons x xs).not_le
    | cons y ys =>
      by_cases hxy : x = y
      · subst hxy
        rw [show charsLe (x :: xs) (x :: ys) = charsLe xs ys from by simp [charsLe]]
        rw [ih ys]
        constructor
        · exact List.cons_le_cons x
        · intro h
          rw [le_iff_lt_or_eq] at h
          rcases h with h | h
          · have hlex : List.Lex (· < ·) (x :: xs) (x :: ys) := h
            exact le_of_lt (List.Lex.cons_iff.mp hlex)
          · have : xs = ys := (List.cons.injEq x xs x ys ▸ h).2
            exact le_of_eq this
      · rw [show charsLe (x :: xs) (y :: ys) = Nat.blt x.toNat y.toNat from by
          simp [charsLe, hxy]]
        rw [Nat.blt_eq]
        rw [show (x.toNat < y.toNat ↔ x < y) from Iff.rfl]
        constructor
        · intro hlt
          exact le_of_lt (List.Lex.rel hlt)
        · intro hle
          by_contra hnlt
          have hyx : y < x := by
            rcases lt_or_gt_of_ne hxy with h1 | h1
            · exact absurd h1 hnlt
            · exact h1
          have hlt2 : (y :: ys) < (x :: xs) := List.Lex.rel hyx
          exact absurd hle hlt2.not_le

theorem strLe_iff (a b : String) : strLe a b = true ↔ a ≤ b := by
  rw [show strLe a b = charsLe a.data b.data from rfl, charsLe_iff]
  exact String.le_iff_toList_le.symm

theorem strLe_false (a b : String) (h : strLe a b = false) : b ≤ a := by
  rcases le_total a b with hab | hba
  · exact absurd ((strLe_iff a b).mpr hab) (by simp [h])
  · exact hba

theorem pairwise_insertByKey (p : String × Nat) :
    ∀ l, l.Pairwise (fun a b => a.1 ≤ b.1) →
      (insertByKey p l).Pairwise (fun a b => a.1 ≤ b.1) := by
  intro l
  induction l with
  | nil =>
    intro _
    simp [insertByKey]
  | cons q qs ih =>
    intro h
    rcases List.pairwise_cons.mp h with ⟨hq, hqs⟩
    rw [insertByKey]
    by_cases hle : strLe p.1 q.1 = true
    · rw [if_pos hle]
      refine List.pairwise_cons.mpr ⟨?_, h⟩
      intro x hx
      rcases List.mem_cons.mp hx with rfl | hx
      · exact (strLe_iff _ _).mp hle
      · exact le_trans ((strLe_iff _ _).mp hle) (hq x hx)
    · rw [if_neg hle]
      refine List.pairwise_cons.mpr ⟨?_, ih hqs⟩
      intro x hx
      rcases List.mem_cons.mp ((insertByKey_perm p qs).mem_iff.mp hx) with rfl | hx
      · exact strLe_false _ _ (Bool.eq_false_iff.mpr hle)
      · exact hq x hx

theorem pairwise_sortByKey :
    ∀ l, (sortByKey l).Pairwise (fun a b : String × Nat => a.1 ≤ b.1) := by
  intro l
  induction l with
  | nil => simp [sortByKey]
  | cons p ps ih => exact pairwise_insertByKey p _ ih

theorem pairwise_lt_of_le_nodup : ∀ (l : List String),
    l.Pairwise (· ≤ ·) → l.Nodup → l.Pairwise (· < ·) := by
  intro l
  induction l with
  | nil =>
    intro _ _
    exact List.Pairwise.nil
  | cons a l ih =>
    intro h1 h2
    rcases List.pairwise_cons.mp h1 with ⟨ha, hl⟩
    rcases List.nodup_cons.mp h2 with ⟨hna, hnl⟩
    refine List.pairwise_cons.mpr ⟨?_, ih hl hnl⟩
    intro b hb
    exact lt_of_le_of_ne (ha b hb) (fun he => hna (he ▸ hb))

/-- C6: the daily_engagement values sum to total_engagement, which is the
sum over all records of likes + comments + shares. -/
theorem C6_daily_engagement_conservation (R : List PostRecord) :
    ((process_data_metrics R).daily_engagement.map Prod.snd).sum
      = (process_data_metrics R).total_engagement ∧
    (process_data_metrics R).total_engagement
      = (R.map (fun r =>
          r.engagement.likes + r.engagement.comments + r.engagement.shares)).sum := by
  cases R with
  | nil => simp [process_data_metrics, emptyMetrics]
  | cons r R =>
    have hd : (process_data_metrics (r :: R)).daily_engagement
        = sortByKey (daily_unsorted (r :: R)) := by
      simp [process_data_metrics]
    have hte : (process_data_metrics (r :: R)).total_engagement
        = ((r :: R).map engTotal).sum := by
      simp [process_data_metrics]
    refine ⟨?_, hte⟩
    rw [hd, hte]
    have hperm := (sortByKey_perm (daily_unsorted (r :: R))).map Prod.snd
    rw [hperm.sum_eq]
    have h := sum_snd_daily_foldl (r :: R) [] (by simp)
    simpa [daily_unsorted] using h

/-- C7: daily_engagement groups the records by the date part of their
timestamp (each entry's value is the engagement sum of exactly the
records with that date part, and a date key is present iff some record
has it), and its keys in emission order are sorted ascending: pairwise ≤
and, the keys being distinct, pairwise <. -/
theorem C7_daily_engagement_grouped_sorted (R : List PostRecord) :
    (∀ d t, (d, t) ∈ (process_data_metrics R).daily_engagement →
       t = ((R.filter (fun r => datePart r.date = d)).map engTotal).sum) ∧
    (∀ d, d ∈ (process_data_metrics R).daily_engagement.map Prod.fst ↔
       ∃ r ∈ R, datePart r.date = d) ∧
    ((process_data_metrics R).daily_engagement.map Prod.fst).Pairwise (· ≤ ·) ∧
    ((process_data_metrics R).daily_engagement.map Prod.fst).Pairwise (· < ·) := by
  cases R with
  | nil => simp [process_data_metrics, emptyMetrics]
  | cons r R =>
    have hd : (process_data_metrics (r :: R)).daily_engagement
        = sortByKey (daily_unsorted (r :: R)) := by
      simp [process_data_metrics]
    rw [hd]
    have hperm : (sortByKey (daily_unsorted (r :: R))).Perm (daily_unsorted (r :: R)) :=
      sortByKey_perm _
    have hkeysperm := hperm.map Prod.fst
    have hndU : ((daily_unsorted (r :: R)).map Prod.fst).Nodup :=
      nodup_keys_daily_unsorted (r :: R)
    have hndS : ((sortByKey (daily_unsorted (r :: R))).map Prod.fst).Nodup :=
      hkeysperm.nodup_iff.mpr hndU
    have hle : ((sortByKey (daily_unsorted (r :: R))).map Prod.fst).Pairwise (· ≤ ·) :=
      List.pairwise_map.mpr (pairwise_sortByKey _)
    refine ⟨?_, ?_, hle, pairwise_lt_of_le_nodup _ hle hndS⟩
    · intro d t hmem
      have hmemU : (d, t) ∈ daily_unsorted (r :: R) := hperm.mem_iff.mp hmem
      have hval := dayTotal_of_mem d t _ hndU hmemU
      rw [← hval]
      have h2 := dayTotal_daily_foldl (r :: R) [] (by simp) d
      simpa [daily_unsorted, dayTotal] using h2
    · intro d
      rw [hkeysperm.mem_iff]
      have h2 := mem_keys_daily_foldl (r :: R) [] d
      simpa [daily_unsorted] using h2

theorem C7_daily_engagement_grouped_sorted_witness :
    (("2024-01-01", 10) ∈ (process_data_metrics [rec1, rec2]).daily_engagement) ∧
    10 = (([rec1, rec2].filter (fun r => datePart r.date = "2024-01-01")).map
        engTotal).sum :=
  ⟨by decide,
   (C7_daily_engagement_grouped_sorted [rec1, rec2]).1 "2024-01-01" 10 (by decide)⟩
